import Mathlib

/-
Verification of the backup retention engine: period algebra, config
validator, GFS keep-set builder, deletion pipeline and cleaner loop.
Definitions are shallow embeddings of the corresponding Go functions;
time instants are modelled as UTC Unix seconds (Int), byte sizes in MiB
as rationals, and UUIDs as natural numbers.
-/

/-- Backup status: one of IN_PROGRESS, COMPLETED, FAILED. -/
inductive BackupStatus
  | inProgress
  | completed
  | failed
deriving DecidableEq, Repr

/-- One catalog row per produced backup; the fields the engine reads
(id, databaseId, storageId, status, backupSizeMb, createdAt, fileName).
createdAt is a UTC instant in Unix seconds. -/
structure Backup where
  id : Nat
  databaseId : Nat
  storageId : Nat
  status : BackupStatus
  backupSizeMb : ℚ
  createdAt : Int
  fileName : String
deriving DecidableEq, Repr

/-- Model of the civil-calendar date computation the Go time package
performs for a UTC instant: days since the Unix epoch to
(year, month, day) in the proleptic Gregorian calendar. -/
def civilFromDays (z : Int) : Int × Int × Int :=
  let z' := z + 719468
  let era := Int.fdiv z' 146097
  let doe := (z' - era * 146097).toNat
  let yoe := (doe - doe / 1460 + doe / 36524 - doe / 146096) / 365
  let y := (yoe : Int) + era * 400
  let doy := doe - (365 * yoe + yoe / 4 - yoe / 100)
  let mp := (5 * doy + 2) / 153
  let d := (doy : Int) - (((153 * mp + 2) / 5 : Nat) : Int) + 1
  let m := (mp : Int) + (if mp < 10 then 3 else -9)
  (if m ≤ 2 then y + 1 else y, m, d)

/-- Inverse of civilFromDays: (year, month, day) to days since the Unix
epoch, as computed by the Go time package. -/
def daysFromCivil (y m d : Int) : Int :=
  let y' := if m ≤ 2 then y - 1 else y
  let era := Int.fdiv y' 400
  let yoe := (y' - era * 400).toNat
  let mp := (if 2 < m then m - 3 else m + 9).toNat
  let doy := (153 * mp + 2) / 5 + (d - 1).toNat
  let doe := yoe * 365 + yoe / 4 - yoe / 100 + doy
  era * 146097 + (doe : Int) - 719468

/-- Days since the Unix epoch of a UTC instant in seconds. -/
def epochDays (t : Int) : Int := Int.fdiv t 86400

/-- Second within the UTC day of an instant. -/
def secondOfDay (t : Int) : Nat := (Int.emod t 86400).toNat

/-- Model of the ISO-8601 week computation of the Go time package
(`Time.ISOWeek`): the week belongs to the year containing its Thursday;
returns (ISO week-year, week number starting from 1). Input is days
since the Unix epoch, which fell on a Thursday. -/
def isoWeekOfDays (days : Int) : Int × Int :=
  let wd := (Int.emod (days + 3) 7).toNat
  let thu := days + (3 - (wd : Int))
  let y := (civilFromDays thu).1
  let yday := (thu - daysFromCivil y 1 1).toNat
  (y, (yday / 7 : Nat) + 1)

/-- GFS hour bucket of a backup: the Go source formats
createdAt as "2006-01-02-15"; modelled injectively as the tuple
(year, month, day, hour). -/
def hourKey (b : Backup) : Int × Int × Int × Int :=
  let c := civilFromDays (epochDays b.createdAt)
  (c.1, c.2.1, c.2.2, ((secondOfDay b.createdAt / 3600 : Nat) : Int))

/-- GFS day bucket: format "2006-01-02", modelled as (year, month, day). -/
def dayKey (b : Backup) : Int × Int × Int :=
  civilFromDays (epochDays b.createdAt)

/-- GFS week bucket: ISO week-year and week number, the Go source
formats them as "%d-%02d". -/
def weekKey (b : Backup) : Int × Int :=
  isoWeekOfDays (epochDays b.createdAt)

/-- GFS month bucket: format "2006-01", modelled as (year, month). -/
def monthKey (b : Backup) : Int × Int :=
  let c := civilFromDays (epochDays b.createdAt)
  (c.1, c.2.1)

/-- GFS year bucket: format "2006", modelled as the year. -/
def yearKey (b : Backup) : Int :=
  (civilFromDays (epochDays b.createdAt)).1

/-- The eleven named retention time periods of package period.
The empty string value of the Go string type is represented as
Option.none at use sites. -/
inductive TimePeriod
  | day
  | week
  | month
  | month3
  | month6
  | year
  | years2
  | years3
  | years4
  | years5
  | forever
deriving DecidableEq, Repr, Fintype

/-- ToDuration of package period, in seconds (the Go source returns
nanoseconds; the scale does not affect any comparison). FOREVER maps
to 0 as in the source. -/
def TimePeriod.ToDuration : TimePeriod → Int
  | .day => 86400
  | .week => 7 * 86400
  | .month => 30 * 86400
  | .month3 => 90 * 86400
  | .month6 => 180 * 86400
  | .year => 365 * 86400
  | .years2 => 2 * 365 * 86400
  | .years3 => 3 * 365 * 86400
  | .years4 => 4 * 365 * 86400
  | .years5 => 5 * 365 * 86400
  | .forever => 0

/-- CompareTo of package period: equal periods compare 0, FOREVER is
treated as the longest period, otherwise durations are compared. -/
def TimePeriod.CompareTo (p other : TimePeriod) : Int :=
  if p = other then 0
  else
    let d1 := p.ToDuration
    let d2 := other.ToDuration
    if p = .forever then 1
    else if other = .forever then -1
    else if d1 < d2 then -1
    else if d1 > d2 then 1
    else 0

/-- Per-slot-class state of buildGFSKeepSet: the seen-key set and the
kept count of one of the five classes. -/
structure GFSClassState (K : Type) where
  seen : Finset K
  kept : Nat

/-- One conditional slot-filling block of buildGFSKeepSet: if the budget
is positive, the kept count is below budget and the key is unseen, mark
the key seen, increment the count and report that the backup is kept.
The five blocks of the Go source instantiate this with the five key
functions and budgets. -/
def classStep {K : Type} [DecidableEq K] (key : Backup → K) (budget : Int)
    (b : Backup) (s : GFSClassState K) : GFSClassState K × Bool :=
  if 0 < budget ∧ (s.kept : Int) < budget ∧ key b ∉ s.seen then
    (⟨insert (key b) s.seen, s.kept + 1⟩, true)
  else (s, false)

/-- Full iteration state of buildGFSKeepSet: the keep map (modelled as
the set of kept ids) plus the five per-class states. -/
structure GFSState where
  keep : Finset Nat
  hoursS : GFSClassState (Int × Int × Int × Int)
  daysS : GFSClassState (Int × Int × Int)
  weeksS : GFSClassState (Int × Int)
  monthsS : GFSClassState (Int × Int)
  yearsS : GFSClassState Int

/-- Processing of a single backup by buildGFSKeepSet: the five slot
classes are tried in the order hours, days, weeks, months, years, and
the backup id is inserted into the keep set when any class keeps it. -/
def gfsStep (hours days weeks months years : Int) (s : GFSState) (b : Backup) :
    GFSState :=
  let h := classStep hourKey hours b s.hoursS
  let d := classStep dayKey days b s.daysS
  let w := classStep weekKey weeks b s.weeksS
  let m := classStep monthKey months b s.monthsS
  let y := classStep yearKey years b s.yearsS
  { keep := if h.2 || d.2 || w.2 || m.2 || y.2 then insert b.id s.keep else s.keep
    hoursS := h.1
    daysS := d.1
    weeksS := w.1
    monthsS := m.1
    yearsS := y.1 }

/-- Initial state of buildGFSKeepSet: empty keep map, empty seen sets,
zero kept counts. -/
def gfsInit : GFSState := ⟨∅, ⟨∅, 0⟩, ⟨∅, 0⟩, ⟨∅, 0⟩, ⟨∅, 0⟩, ⟨∅, 0⟩⟩

/-- buildGFSKeepSet of the cleaner: which backups to retain under the
GFS rotation scheme; backups must be sorted newest-first. -/
def buildGFSKeepSet (backups : List Backup)
    (hours days weeks months years : Int) : Finset Nat :=
  (backups.foldl (gfsStep hours days weeks months years) gfsInit).keep

/-- Instrumented run of a single GFS slot class from a given class
state: the sublist of backups that fill a slot of that class. Used to
decompose buildGFSKeepSet into its five independent classes. -/
def keptViaFrom {K : Type} [DecidableEq K] (key : Backup → K) (budget : Int) :
    GFSClassState K → List Backup → List Backup
  | _, [] => []
  | s, b :: rest =>
    let r := classStep key budget b s
    if r.2 then b :: keptViaFrom key budget r.1 rest
    else keptViaFrom key budget r.1 rest

/-- The backups that fill a slot of one GFS class, starting from the
empty class state. -/
def keptVia {K : Type} [DecidableEq K] (key : Backup → K) (budget : Int)
    (backups : List Backup) : List Backup :=
  keptViaFrom key budget ⟨∅, 0⟩ backups

/-- The ids of a list of backups, as a set. -/
def idsOf (l : List Backup) : Finset Nat := (l.map Backup.id).toFinset

/-- Modelled from the spec: repository query findBackupsBeforeDate —
backups of the database with createdAt strictly before the bound, any
status (the repository implementation is outside the provided sources;
ordering is inherited from the catalog list, which is taken
newest-first). -/
def findBackupsBeforeDate (db : List Backup) (t : Int) : List Backup :=
  db.filter (fun b => b.createdAt < t)

/-- Modelled from the spec: repository query findByDatabaseIdAndStatus —
backups of the database with the given status, ordered newest-first
(ordering inherited from the catalog list, taken newest-first). -/
def findByDatabaseIdAndStatus (db : List Backup) (st : BackupStatus) :
    List Backup :=
  db.filter (fun b => b.status == st)

/-- Modelled from the spec: repository query getTotalSizeByDatabase —
the sum of backupSizeMb over COMPLETED backups only. -/
def getTotalSizeByDatabase (db : List Backup) : ℚ :=
  ((db.filter (fun b => b.status == BackupStatus.completed)).map
    Backup.backupSizeMb).sum

/-- Modelled from the spec: repository query
findOldestByDatabaseExcludingInProgress with limit 1 — the backup with
the least createdAt among those whose status is not IN_PROGRESS
(ties resolved to the earlier catalog entry). -/
def findOldestByDatabaseExcludingInProgress (db : List Backup) :
    Option Backup :=
  (db.filter (fun b => !(b.status == BackupStatus.inProgress))).foldl
    (fun acc b =>
      match acc with
      | none => some b
      | some a => if b.createdAt < a.createdAt then some b else some a)
    none

/-- isRecentBackup of the cleaner: time.Since(createdAt) is below the
60-minute grace period (3600 seconds). -/
def isRecentBackup (now : Int) (b : Backup) : Bool :=
  now - b.createdAt < 3600

lemma oldestFold_mem : ∀ (l : List Backup) (acc : Option Backup) (b : Backup),
    l.foldl (fun acc b =>
      match acc with
      | none => some b
      | some a => if b.createdAt < a.createdAt then some b else some a)
      acc = some b →
    b ∈ l ∨ acc = some b := by
  intro l
  induction l with
  | nil => intro acc b h; exact Or.inr h
  | cons c rest ih =>
    intro acc b h
    simp only [List.foldl_cons] at h
    rcases ih _ b h with hm | hacc
    · exact Or.inl (List.mem_cons_of_mem _ hm)
    · cases acc with
      | none =>
        simp only [Option.some.injEq] at hacc
        exact Or.inl (hacc ▸ List.mem_cons_self c rest)
      | some a =>
        by_cases hlt : c.createdAt < a.createdAt
        · simp only [hlt, if_true, Option.some.injEq] at hacc
          exact Or.inl (hacc ▸ List.mem_cons_self c rest)
        · simp only [hlt, if_false, Option.some.injEq] at hacc
          exact Or.inr (by rw [hacc])

lemma findOldest_mem {db : List Backup} {b : Backup}
    (h : findOldestByDatabaseExcludingInProgress db = some b) :
    b ∈ db ∧ b.status ≠ BackupStatus.inProgress := by
  unfold findOldestByDatabaseExcludingInProgress at h
  rcases oldestFold_mem _ _ _ h with hm | hacc
  · rw [List.mem_filter] at hm
    refine ⟨hm.1, ?_⟩
    have := hm.2
    simp only [Bool.not_eq_true', beq_eq_false_iff_ne, ne_eq] at this
    exact this
  · exact absurd hacc (by simp)


/-- RetentionPolicyType: the Go string type with its three named values;
empty models the empty string and invalid any other string. -/
inductive RetentionPolicyType
  | TIME_PERIOD
  | COUNT
  | GFS
  | empty
  | invalid
deriving DecidableEq, Repr

/-- BackupEncryption: the Go string type with its two named values;
empty models the empty string and invalid any other string. -/
inductive BackupEncryption
  | NONE
  | ENCRYPTED
  | empty
  | invalid
deriving DecidableEq, Repr

/-- BackupConfig: the fields read by the validator and the cleaner.
The two interval fields of the Go struct (a UUID and a pointer) enter
validation only through nil-ness, modelled as presence booleans; the
retention time period is an Option, none modelling the empty string. -/
structure BackupConfig where
  hasBackupIntervalID : Bool
  hasBackupInterval : Bool
  retentionPolicyType : RetentionPolicyType
  retentionTimePeriod : Option TimePeriod
  retentionCount : Int
  retentionGfsHours : Int
  retentionGfsDays : Int
  retentionGfsWeeks : Int
  retentionGfsMonths : Int
  retentionGfsYears : Int
  isRetryIfFailed : Bool
  maxFailedTriesCount : Int
  encryption : BackupEncryption
  maxBackupSizeMB : Int
  maxBackupsTotalSizeMB : Int
deriving DecidableEq, Repr

/-- DatabasePlan: the per-database plan limits the validator reads. -/
structure DatabasePlan where
  maxBackupSizeMB : Int
  maxBackupsTotalSizeMB : Int
  maxStoragePeriod : TimePeriod
deriving DecidableEq, Repr

/-- validateRetentionPolicy of BackupConfig: the per-policy
sub-validation, switching on the retention policy type with the empty
string handled like TIME_PERIOD. -/
def validateRetentionPolicy (b : BackupConfig) (plan : DatabasePlan) :
    Option String :=
  match b.retentionPolicyType with
  | .TIME_PERIOD | .empty =>
    match b.retentionTimePeriod with
    | none => some "retention time period is required"
    | some p =>
      if plan.maxStoragePeriod = TimePeriod.forever then none
      else if 0 < p.CompareTo plan.maxStoragePeriod then
        some "storage period exceeds plan limit"
      else none
  | .COUNT =>
    if b.retentionCount ≤ 0 then
      some "retention count must be greater than 0"
    else none
  | .GFS =>
    if b.retentionGfsHours ≤ 0 ∧ b.retentionGfsDays ≤ 0 ∧
        b.retentionGfsWeeks ≤ 0 ∧ b.retentionGfsMonths ≤ 0 ∧
        b.retentionGfsYears ≤ 0 then
      some "at least one GFS retention field must be greater than 0"
    else none
  | .invalid => some "invalid retention policy type"

/-- Validate of BackupConfig: the ordered checks of the config
validator; isCloud is the cloud-mode environment flag read by the Go
source through its global config. -/
def Validate (isCloud : Bool) (b : BackupConfig) (plan : DatabasePlan) :
    Option String :=
  if ¬ b.hasBackupIntervalID ∧ ¬ b.hasBackupInterval then
    some "backup interval is required"
  else
    match validateRetentionPolicy b plan with
    | some e => some e
    | none =>
      if b.isRetryIfFailed ∧ b.maxFailedTriesCount ≤ 0 then
        some "max failed tries count must be greater than 0"
      else if ¬ b.encryption = BackupEncryption.empty ∧
          ¬ b.encryption = BackupEncryption.NONE ∧
          ¬ b.encryption = BackupEncryption.ENCRYPTED then
        some "encryption must be NONE or ENCRYPTED"
      else if isCloud ∧ ¬ b.encryption = BackupEncryption.ENCRYPTED then
        some "encryption is mandatory for cloud storage"
      else if b.maxBackupSizeMB < 0 then
        some "max backup size must be non-negative"
      else if b.maxBackupsTotalSizeMB < 0 then
        some "max backups total size must be non-negative"
      else if 0 < plan.maxBackupSizeMB ∧
          (b.maxBackupSizeMB = 0 ∨ plan.maxBackupSizeMB < b.maxBackupSizeMB) then
        some "max backup size exceeds plan limit"
      else if 0 < plan.maxBackupsTotalSizeMB ∧
          (b.maxBackupsTotalSizeMB = 0 ∨
            plan.maxBackupsTotalSizeMB < b.maxBackupsTotalSizeMB) then
        some "max total backups size exceeds plan limit"
      else none

/-- cleanByTimePeriod of the cleaner: skip when the retention period is
empty or FOREVER; otherwise every backup older than now minus the
period duration and outside the grace period is passed to the deletion
pipeline. Returns the backups handed to DeleteBackup. -/
def cleanByTimePeriod (cfg : BackupConfig) (now : Int) (db : List Backup) :
    List Backup :=
  match cfg.retentionTimePeriod with
  | none => []
  | some p =>
    if p = TimePeriod.forever then []
    else
      (findBackupsBeforeDate db (now - p.ToDuration)).filter
        (fun b => !(isRecentBackup now b))

/-- cleanByCount of the cleaner: skip when retentionCount is not
positive; otherwise the completed backups beyond position
retentionCount (newest-first) and outside the grace period are passed
to the deletion pipeline. -/
def cleanByCount (cfg : BackupConfig) (now : Int) (db : List Backup) :
    List Backup :=
  if cfg.retentionCount ≤ 0 then []
  else
    let completedBackups := findByDatabaseIdAndStatus db BackupStatus.completed
    if (completedBackups.length : Int) ≤ cfg.retentionCount then []
    else
      (completedBackups.drop cfg.retentionCount.toNat).filter
        (fun b => !(isRecentBackup now b))

/-- cleanByGFS of the cleaner: skip when every GFS counter is not
positive; otherwise the completed backups outside the keep set and
outside the grace period are passed to the deletion pipeline. -/
def cleanByGFS (cfg : BackupConfig) (now : Int) (db : List Backup) :
    List Backup :=
  if cfg.retentionGfsHours ≤ 0 ∧ cfg.retentionGfsDays ≤ 0 ∧
      cfg.retentionGfsWeeks ≤ 0 ∧ cfg.retentionGfsMonths ≤ 0 ∧
      cfg.retentionGfsYears ≤ 0 then []
  else
    let completedBackups := findByDatabaseIdAndStatus db BackupStatus.completed
    let keepSet := buildGFSKeepSet completedBackups cfg.retentionGfsHours
      cfg.retentionGfsDays cfg.retentionGfsWeeks cfg.retentionGfsMonths
      cfg.retentionGfsYears
    completedBackups.filter
      (fun b => !(decide (b.id ∈ keepSet)) && !(isRecentBackup now b))

/-- cleanExceededBackupsForDatabase of the cleaner: while the completed
total size is above the limit, fetch the single oldest
non-in-progress backup; stop when none exists or it is inside the
grace period, otherwise delete it and loop. Returns the deleted
backups (in deletion order) and the remaining catalog rows. -/
def cleanExceededBackupsForDatabase (now limitperDbMB : Int)
    (db : List Backup) : List Backup × List Backup :=
  if getTotalSizeByDatabase db ≤ (limitperDbMB : ℚ) then ([], db)
  else
    match h : findOldestByDatabaseExcludingInProgress db with
    | none => ([], db)
    | some b =>
      if isRecentBackup now b then ([], db)
      else
        let rest := db.eraseP (fun x => x.id == b.id)
        let r := cleanExceededBackupsForDatabase now limitperDbMB rest
        (b :: r.1, r.2)
termination_by db.length
decreasing_by
  have hb := findOldest_mem h
  have hlen : (db.eraseP (fun x => x.id == b.id)).length = db.length - 1 :=
    List.length_eraseP_of_mem hb.1 (by simp)
  have hpos : 0 < db.length := List.length_pos_of_mem hb.1
  omega

/-- The per-config dispatch of cleanByRetentionPolicy: COUNT and GFS go
to their policies, every other retention policy type (including the
empty string) to cleanByTimePeriod. -/
def cleanByRetentionPolicyForConfig (cfg : BackupConfig) (now : Int)
    (db : List Backup) : List Backup :=
  match cfg.retentionPolicyType with
  | .COUNT => cleanByCount cfg now db
  | .GFS => cleanByGFS cfg now db
  | _ => cleanByTimePeriod cfg now db

/-- Removal of the listed backups from the catalog by id, in order:
the effect on the catalog of the deletion pipeline succeeding on each
of them. -/
def removeAllById (db deleted : List Backup) : List Backup :=
  deleted.foldl (fun acc b => acc.eraseP (fun x => x.id == b.id)) db

/-- One cleaner tick for one enabled config and its catalog rows: the
retention-policy phase followed, when the total-size cap is positive,
by size enforcement on the remaining rows. Returns every backup passed
to the deletion pipeline during the tick. -/
def cleanerTick (cfg : BackupConfig) (now : Int) (db : List Backup) :
    List Backup :=
  let d1 := cleanByRetentionPolicyForConfig cfg now db
  let db1 := removeAllById db d1
  let d2 :=
    if cfg.maxBackupsTotalSizeMB ≤ 0 then []
    else (cleanExceededBackupsForDatabase now cfg.maxBackupsTotalSizeMB db1).1
  d1 ++ d2

/-- Outcomes of the external calls DeleteBackup makes, in the order it
makes them: the result each registered pre-removal listener would
return (none meaning ok), the storage-handle lookup, the two blob
deletions and the catalog row deletion. -/
structure DeleteEnv where
  hookResults : List (Option String)
  storageLookup : Option String
  deleteMainResult : Option String
  deleteMetaResult : Option String
  repoDeleteResult : Option String
deriving DecidableEq, Repr

/-- Which effects a run of DeleteBackup performed: how many listeners
were invoked and whether each deletion step was attempted. -/
structure DeleteTrace where
  hooksInvoked : Nat
  mainBlobAttempted : Bool
  metaBlobAttempted : Bool
  catalogDeleteAttempted : Bool
deriving DecidableEq, Repr

/-- The pre-removal listener loop of DeleteBackup: invoke listeners in
registration order, stopping at the first error; returns the first
error (if any) and the number of listeners invoked. -/
def runHooks : List (Option String) → Option String × Nat
  | [] => (none, 0)
  | h :: rest =>
    match h with
    | some e => (some e, 1)
    | none =>
      let r := runHooks rest
      (r.1, r.2 + 1)

/-- DeleteBackup of the cleaner: pre-removal hooks, storage-handle
lookup, best-effort deletion of the main and metadata blobs (their
errors are logged and swallowed), then the authoritative catalog
deletion whose error is returned. Returns the operation result and the
trace of performed effects. -/
def DeleteBackup (env : DeleteEnv) : Option String × DeleteTrace :=
  let hr := runHooks env.hookResults
  match hr.1 with
  | some e => (some e, ⟨hr.2, false, false, false⟩)
  | none =>
    match env.storageLookup with
    | some e => (some e, ⟨hr.2, false, false, false⟩)
    | none => (env.repoDeleteResult, ⟨hr.2, true, true, true⟩)

lemma keptViaFrom_cons {K : Type} [DecidableEq K] (key : Backup → K)
    (budget : Int) (s : GFSClassState K) (b : Backup) (rest : List Backup) :
    keptViaFrom key budget s (b :: rest) =
      if (classStep key budget b s).2 then
        b :: keptViaFrom key budget (classStep key budget b s).1 rest
      else keptViaFrom key budget (classStep key budget b s).1 rest := rfl

lemma classStep_pos {K : Type} [DecidableEq K] {key : Backup → K}
    {budget : Int} {b : Backup} {s : GFSClassState K}
    (h : 0 < budget ∧ (s.kept : Int) < budget ∧ key b ∉ s.seen) :
    classStep key budget b s = (⟨insert (key b) s.seen, s.kept + 1⟩, true) := by
  unfold classStep
  rw [if_pos h]

lemma classStep_neg {K : Type} [DecidableEq K] {key : Backup → K}
    {budget : Int} {b : Backup} {s : GFSClassState K}
    (h : ¬(0 < budget ∧ (s.kept : Int) < budget ∧ key b ∉ s.seen)) :
    classStep key budget b s = (s, false) := by
  unfold classStep
  rw [if_neg h]

lemma keptViaFrom_sub {K : Type} [DecidableEq K] (key : Backup → K)
    (budget : Int) :
    ∀ (l : List Backup) (s : GFSClassState K) (b : Backup),
      b ∈ keptViaFrom key budget s l → b ∈ l := by
  intro l
  induction l with
  | nil => intro s b h; simp [keptViaFrom] at h
  | cons c rest ih =>
    intro s b h
    rw [keptViaFrom_cons] at h
    by_cases hg : 0 < budget ∧ (s.kept : Int) < budget ∧ key c ∉ s.seen
    · rw [classStep_pos hg] at h
      simp only [if_true] at h
      rcases List.mem_cons.mp h with rfl | hm
      · exact List.mem_cons_self _ _
      · exact List.mem_cons_of_mem _ (ih _ _ hm)
    · rw [classStep_neg hg] at h
      simp only [if_neg] at h
      exact List.mem_cons_of_mem _ (ih _ _ h)

lemma keptViaFrom_not_seen {K : Type} [DecidableEq K] (key : Backup → K)
    (budget : Int) :
    ∀ (l : List Backup) (s : GFSClassState K) (b : Backup),
      b ∈ keptViaFrom key budget s l → key b ∉ s.seen := by
  intro l
  induction l with
  | nil => intro s b h; simp [keptViaFrom] at h
  | cons c rest ih =>
    intro s b h
    rw [keptViaFrom_cons] at h
    by_cases hg : 0 < budget ∧ (s.kept : Int) < budget ∧ key c ∉ s.seen
    · rw [classStep_pos hg] at h
      simp only [if_true] at h
      rcases List.mem_cons.mp h with rfl | hm
      · exact hg.2.2
      · intro hmem
        exact ih _ _ hm (Finset.mem_insert_of_mem hmem)
    · rw [classStep_neg hg] at h
      simp only [if_neg] at h
      exact ih _ _ h

lemma keptViaFrom_pairwise {K : Type} [DecidableEq K] (key : Backup → K)
    (budget : Int) :
    ∀ (l : List Backup) (s : GFSClassState K),
      (keptViaFrom key budget s l).Pairwise (fun a b => key a ≠ key b) := by
  intro l
  induction l with
  | nil => intro s; simp [keptViaFrom]
  | cons c rest ih =>
    intro s
    rw [keptViaFrom_cons]
    by_cases hg : 0 < budget ∧ (s.kept : Int) < budget ∧ key c ∉ s.seen
    · rw [classStep_pos hg]
      simp only [if_true]
      refine List.Pairwise.cons ?_ (ih _)
      intro b hb heq
      have := keptViaFrom_not_seen key budget _ _ _ hb
      exact this (heq ▸ Finset.mem_insert_self _ _)
    · rw [classStep_neg hg]
      simp only [if_neg]
      exact ih _

lemma keptViaFrom_stuck {K : Type} [DecidableEq K] (key : Backup → K)
    (budget : Int) :
    ∀ (l : List Backup) (s : GFSClassState K),
      ¬((s.kept : Int) < budget) → keptViaFrom key budget s l = [] := by
  intro l
  induction l with
  | nil => intro s _; rfl
  | cons c rest ih =>
    intro s hk
    rw [keptViaFrom_cons, classStep_neg (by tauto)]
    simp only [if_neg]
    exact ih _ hk

lemma keptViaFrom_length {K : Type} [DecidableEq K] (key : Backup → K)
    (budget : Int) :
    ∀ (l : List Backup) (s : GFSClassState K),
      (keptViaFrom key budget s l).length ≤ budget.toNat - s.kept := by
  intro l
  induction l with
  | nil => intro s; simp [keptViaFrom]
  | cons c rest ih =>
    intro s
    rw [keptViaFrom_cons]
    by_cases hg : 0 < budget ∧ (s.kept : Int) < budget ∧ key c ∉ s.seen
    · rw [classStep_pos hg]
      simp only [if_true, List.length_cons]
      have h1 := ih (⟨insert (key c) s.seen, s.kept + 1⟩ : GFSClassState K)
      have h2 : s.kept < budget.toNat := by
        have := hg.1
        have := hg.2.1
        omega
      simp only at h1
      omega
    · rw [classStep_neg hg]
      simp only [if_neg]
      exact ih _

lemma keptViaFrom_nonpos {K : Type} [DecidableEq K] (key : Backup → K)
    {budget : Int} (hb : budget ≤ 0) (l : List Backup) (s : GFSClassState K) :
    keptViaFrom key budget s l = [] := by
  induction l generalizing s with
  | nil => rfl
  | cons c rest ih =>
    rw [keptViaFrom_cons, classStep_neg (by intro h; exact absurd h.1 (by omega))]
    simp only [if_neg]
    exact ih _

lemma keptViaFrom_newest {K : Type} [DecidableEq K] (key : Backup → K)
    (budget : Int) :
    ∀ (l : List Backup) (s : GFSClassState K),
      l.Pairwise (fun a b => b.createdAt ≤ a.createdAt) →
      ∀ b ∈ keptViaFrom key budget s l,
        ∀ b' ∈ l, key b' = key b → b'.createdAt ≤ b.createdAt := by
  intro l
  induction l with
  | nil => intro s _ b h; simp [keptViaFrom] at h
  | cons c rest ih =>
    intro s hsort b hb b' hb' hkey
    have hc : ∀ x ∈ rest, x.createdAt ≤ c.createdAt :=
      fun x hx => (List.pairwise_cons.mp hsort).1 x hx
    have hrest : rest.Pairwise (fun a b => b.createdAt ≤ a.createdAt) :=
      (List.pairwise_cons.mp hsort).2
    rw [keptViaFrom_cons] at hb
    by_cases hg : 0 < budget ∧ (s.kept : Int) < budget ∧ key c ∉ s.seen
    · rw [classStep_pos hg] at hb
      simp only [if_true] at hb
      rcases List.mem_cons.mp hb with rfl | hm
      · rcases List.mem_cons.mp hb' with rfl | hm'
        · exact le_refl _
        · exact hc _ hm'
      · rcases List.mem_cons.mp hb' with rfl | hm'
        · exfalso
          have := keptViaFrom_not_seen key budget _ _ _ hm
          exact this (hkey ▸ Finset.mem_insert_self _ _)
        · exact ih _ hrest b hm b' hm' hkey
    · rw [classStep_neg hg] at hb
      simp only [if_neg] at hb
      rcases List.mem_cons.mp hb' with rfl | hm'
      · push_neg at hg
        by_cases hpos : 0 < budget
        · by_cases hcnt : (s.kept : Int) < budget
          · exfalso
            exact keptViaFrom_not_seen key budget _ _ _ hb
              (hkey ▸ hg hpos hcnt)
          · exfalso
            rw [keptViaFrom_stuck key budget _ _ hcnt] at hb
            simp at hb
        · exfalso
          rw [keptViaFrom_nonpos key (by omega) _ _] at hb
          simp at hb
      · exact ih _ hrest b hb b' hm' hkey

lemma idsOf_nil : idsOf [] = ∅ := rfl

lemma idsOf_cons (b : Backup) (l : List Backup) :
    idsOf (b :: l) = insert b.id (idsOf l) := by
  simp [idsOf]

lemma mem_idsOf {x : Nat} {l : List Backup} :
    x ∈ idsOf l ↔ ∃ b ∈ l, b.id = x := by
  simp [idsOf]

set_option maxHeartbeats 1000000 in
lemma gfs_decomp (H D W M Y : Int) :
    ∀ (l : List Backup) (s : GFSState),
      (l.foldl (gfsStep H D W M Y) s).keep =
        s.keep ∪ idsOf (keptViaFrom hourKey H s.hoursS l)
          ∪ idsOf (keptViaFrom dayKey D s.daysS l)
          ∪ idsOf (keptViaFrom weekKey W s.weeksS l)
          ∪ idsOf (keptViaFrom monthKey M s.monthsS l)
          ∪ idsOf (keptViaFrom yearKey Y s.yearsS l) := by
  intro l
  induction l with
  | nil => intro s; simp [keptViaFrom, idsOf]
  | cons b rest ih =>
    intro s
    rw [List.foldl_cons, ih]
    have hh : (gfsStep H D W M Y s b).hoursS = (classStep hourKey H b s.hoursS).1 := rfl
    have hd : (gfsStep H D W M Y s b).daysS = (classStep dayKey D b s.daysS).1 := rfl
    have hw : (gfsStep H D W M Y s b).weeksS = (classStep weekKey W b s.weeksS).1 := rfl
    have hm : (gfsStep H D W M Y s b).monthsS = (classStep monthKey M b s.monthsS).1 := rfl
    have hy : (gfsStep H D W M Y s b).yearsS = (classStep yearKey Y b s.yearsS).1 := rfl
    have hk : (gfsStep H D W M Y s b).keep =
        if (classStep hourKey H b s.hoursS).2 || (classStep dayKey D b s.daysS).2 ||
            (classStep weekKey W b s.weeksS).2 || (classStep monthKey M b s.monthsS).2 ||
            (classStep yearKey Y b s.yearsS).2
        then insert b.id s.keep else s.keep := rfl
    rw [hh, hd, hw, hm, hy, hk,
      keptViaFrom_cons hourKey, keptViaFrom_cons dayKey, keptViaFrom_cons weekKey,
      keptViaFrom_cons monthKey, keptViaFrom_cons yearKey]
    generalize (classStep hourKey H b s.hoursS) = ch
    generalize (classStep dayKey D b s.daysS) = cd
    generalize (classStep weekKey W b s.weeksS) = cw
    generalize (classStep monthKey M b s.monthsS) = cm
    generalize (classStep yearKey Y b s.yearsS) = cy
    ext x
    cases h1 : ch.2 <;>
      cases h2 : cd.2 <;>
        cases h3 : cw.2 <;>
          cases h4 : cm.2 <;>
            cases h5 : cy.2 <;>
              simp [h1, h2, h3, h4, h5, idsOf_cons, Finset.mem_union,
                Finset.mem_insert]

lemma keptVia_length {K : Type} [DecidableEq K] (key : Backup → K)
    (budget : Int) (l : List Backup) :
    (keptVia key budget l).length ≤ budget.toNat := by
  have := keptViaFrom_length key budget l ⟨∅, 0⟩
  simpa [keptVia] using this

lemma buildGFSKeepSet_eq_union (backups : List Backup)
    (H D W M Y : Int) :
    buildGFSKeepSet backups H D W M Y =
      idsOf (keptVia hourKey H backups) ∪ idsOf (keptVia dayKey D backups)
        ∪ idsOf (keptVia weekKey W backups) ∪ idsOf (keptVia monthKey M backups)
        ∪ idsOf (keptVia yearKey Y backups) := by
  have := gfs_decomp H D W M Y backups gfsInit
  simpa [buildGFSKeepSet, gfsInit, keptVia] using this

lemma idsOf_card_le (l : List Backup) : (idsOf l).card ≤ l.length := by
  calc (idsOf l).card ≤ (l.map Backup.id).length := List.toFinset_card_le _
  _ = l.length := List.length_map _ _

lemma cleanExceeded_deleted_props (now lim : Int) :
    ∀ (n : Nat) (db : List Backup), db.length ≤ n →
      ∀ b ∈ (cleanExceededBackupsForDatabase now lim db).1,
        isRecentBackup now b = false ∧ b.status ≠ BackupStatus.inProgress := by
  intro n
  induction n with
  | zero =>
    intro db hlen b hb
    have : db = [] := List.length_eq_zero.mp (Nat.le_zero.mp hlen)
    subst this
    rw [cleanExceededBackupsForDatabase] at hb
    split at hb
    · simp at hb
    · split at hb
      · simp at hb
      · rename_i b' heq
        simp [findOldestByDatabaseExcludingInProgress] at heq
  | succ n ih =>
    intro db hlen b hb
    rw [cleanExceededBackupsForDatabase] at hb
    split at hb
    · simp at hb
    · split at hb
      · simp at hb
      · rename_i b' heq
        split at hb
        · simp at hb
        · rename_i hrec
          simp only [List.mem_cons] at hb
          rcases hb with rfl | hm
          · refine ⟨by simpa using hrec, (findOldest_mem heq).2⟩
          · have hb' := findOldest_mem heq
            have hlen2 : (db.eraseP (fun x => x.id == b'.id)).length ≤ n := by
              have h1 : (db.eraseP (fun x => x.id == b'.id)).length =
                  db.length - 1 := List.length_eraseP_of_mem hb'.1 (by simp)
              have h2 := List.length_pos_of_mem hb'.1
              omega
            exact ih _ hlen2 b hm

lemma cleanExceeded_post (now lim : Int) :
    ∀ (n : Nat) (db : List Backup), db.length ≤ n →
      getTotalSizeByDatabase (cleanExceededBackupsForDatabase now lim db).2 ≤
          (lim : ℚ) ∨
        findOldestByDatabaseExcludingInProgress
            (cleanExceededBackupsForDatabase now lim db).2 = none ∨
        ∃ b, findOldestByDatabaseExcludingInProgress
              (cleanExceededBackupsForDatabase now lim db).2 = some b ∧
            isRecentBackup now b = true := by
  intro n
  induction n with
  | zero =>
    intro db hlen
    have : db = [] := List.length_eq_zero.mp (Nat.le_zero.mp hlen)
    subst this
    rw [cleanExceededBackupsForDatabase]
    split
    · left; assumption
    · split
      · rename_i heq
        right; left; exact heq
      · rename_i b' heq
        simp [findOldestByDatabaseExcludingInProgress] at heq
  | succ n ih =>
    intro db hlen
    rw [cleanExceededBackupsForDatabase]
    split
    · left; assumption
    · split
      · rename_i heq
        right; left; exact heq
      · rename_i b' heq
        split
        · rename_i hrec
          right; right; exact ⟨b', heq, hrec⟩
        · have hb' := findOldest_mem heq
          have hlen2 : (db.eraseP (fun x => x.id == b'.id)).length ≤ n := by
            have h1 : (db.eraseP (fun x => x.id == b'.id)).length =
                db.length - 1 := List.length_eraseP_of_mem hb'.1 (by simp)
            have h2 := List.length_pos_of_mem hb'.1
            omega
          exact ih _ hlen2

lemma not_recent_ge {now : Int} {b : Backup}
    (h : isRecentBackup now b = false) : 3600 ≤ now - b.createdAt := by
  unfold isRecentBackup at h
  have := of_decide_eq_false h
  omega

lemma cleanByTimePeriod_not_recent {cfg : BackupConfig} {now : Int}
    {db : List Backup} {b : Backup} (hb : b ∈ cleanByTimePeriod cfg now db) :
    isRecentBackup now b = false := by
  unfold cleanByTimePeriod at hb
  split at hb
  · simp at hb
  · split at hb
    · simp at hb
    · rw [List.mem_filter] at hb
      simpa using hb.2

lemma cleanByCount_mem {cfg : BackupConfig} {now : Int} {db : List Backup}
    {b : Backup} (hb : b ∈ cleanByCount cfg now db) :
    b.status = BackupStatus.completed ∧ isRecentBackup now b = false := by
  simp only [cleanByCount] at hb
  split at hb
  · simp at hb
  · split at hb
    · simp at hb
    · rw [List.mem_filter] at hb
      have h1 := List.mem_of_mem_drop hb.1
      rw [findByDatabaseIdAndStatus, List.mem_filter] at h1
      exact ⟨by simpa using h1.2, by simpa using hb.2⟩

lemma cleanByGFS_mem {cfg : BackupConfig} {now : Int} {db : List Backup}
    {b : Backup} (hb : b ∈ cleanByGFS cfg now db) :
    b.status = BackupStatus.completed ∧ isRecentBackup now b = false := by
  simp only [cleanByGFS] at hb
  split at hb
  · simp at hb
  · rw [List.mem_filter] at hb
    have h1 := hb.1
    rw [findByDatabaseIdAndStatus, List.mem_filter] at h1
    have h2 := hb.2
    simp only [Bool.and_eq_true, Bool.not_eq_true'] at h2
    exact ⟨by simpa using h1.2, h2.2⟩

/-- Sample completed backup created 2025-01-01 13:00 UTC. -/
def bNew : Backup := ⟨1, 7, 3, .completed, (10 : ℚ), 1735736400, "b1.dump"⟩

/-- Sample completed backup created 2025-01-01 05:00 UTC. -/
def bOld : Backup := ⟨2, 7, 3, .completed, (10 : ℚ), 1735707600, "b2.dump"⟩

/-- Sample stuck IN_PROGRESS backup created 2024-12-31 13:00 UTC. -/
def bInProg : Backup := ⟨3, 7, 3, .inProgress, (8 : ℚ), 1735650000, "b3.dump"⟩

/-- Sample tick instant 2025-01-03 15:00 UTC, two days after the
sample backups. -/
def tickNow : Int := 1735916400

/-- Sample config with a one-day TIME_PERIOD retention policy and no
size cap. -/
def cfgTimePeriodDay : BackupConfig :=
  ⟨true, false, .TIME_PERIOD, some .day, 0, 0, 0, 0, 0, 0, false, 0, .NONE, 0, 0⟩

/-- Sample config with COUNT policy and a zero retention count, plus
all-zero GFS counters. -/
def cfgZero : BackupConfig :=
  ⟨true, false, .COUNT, none, 0, 0, 0, 0, 0, 0, false, 0, .NONE, 0, 0⟩

/-- C1: every backup passed to the deletion pipeline during a cleaner
tick — by the TIME_PERIOD, COUNT or GFS retention policy or by size
enforcement — is at least 60 minutes (3600 seconds) old at the tick
instant; a recent backup is never handed to the pipeline. -/
theorem grace_guard_tick (cfg : BackupConfig) (now : Int) (db : List Backup)
    (b : Backup) (hb : b ∈ cleanerTick cfg now db) :
    3600 ≤ now - b.createdAt := by
  simp only [cleanerTick] at hb
  rcases List.mem_append.mp hb with h1 | h2
  · unfold cleanByRetentionPolicyForConfig at h1
    have hrec : isRecentBackup now b = false := by
      split at h1
      · exact (cleanByCount_mem h1).2
      · exact (cleanByGFS_mem h1).2
      · exact cleanByTimePeriod_not_recent h1
    exact not_recent_ge hrec
  · split at h2
    · simp at h2
    · exact not_recent_ge
        (cleanExceeded_deleted_props now cfg.maxBackupsTotalSizeMB
          _ _ le_rfl b h2).1

/-- C1 witness: in the sample tick the two-day-old backup bOld is
deleted and is indeed at least 3600 seconds old. -/
theorem grace_guard_tick_witness : 3600 ≤ tickNow - bOld.createdAt :=
  grace_guard_tick cfgTimePeriodDay tickNow [bNew, bOld] bOld (by decide)

/-- C2 counterexample: a tick over a catalog holding one stuck
IN_PROGRESS backup, under a one-day TIME_PERIOD policy, passes that
IN_PROGRESS backup to the deletion pipeline — the claim that no
IN_PROGRESS backup is ever deleted fails on the TIME_PERIOD policy,
whose candidate query returns backups of any status. -/
theorem inprogress_deleted_by_time_period :
    bInProg ∈ cleanerTick cfgTimePeriodDay tickNow [bInProg] ∧
      bInProg.status = BackupStatus.inProgress := by
  constructor
  · decide
  · rfl

/-- C2 amended: the COUNT and GFS policies and size enforcement never
delete an IN_PROGRESS backup (the first two select only COMPLETED
backups, the third excludes IN_PROGRESS); the TIME_PERIOD policy
selects candidates by age alone, irrespective of status: it deletes
exactly the backups older than the cutoff and older than the grace
period. -/
theorem inprogress_protection_amended (cfg : BackupConfig) (now lim : Int)
    (db : List Backup) (b : Backup) :
    (b ∈ cleanByCount cfg now db → b.status ≠ BackupStatus.inProgress) ∧
    (b ∈ cleanByGFS cfg now db → b.status ≠ BackupStatus.inProgress) ∧
    (b ∈ (cleanExceededBackupsForDatabase now lim db).1 →
      b.status ≠ BackupStatus.inProgress) ∧
    (∀ p, cfg.retentionTimePeriod = some p → p ≠ TimePeriod.forever →
      (b ∈ cleanByTimePeriod cfg now db ↔
        b ∈ db ∧ b.createdAt < now - p.ToDuration ∧
          ¬(now - b.createdAt < 3600))) := by
  refine ⟨?_, ?_, ?_, ?_⟩
  · intro hb
    rw [(cleanByCount_mem hb).1]
    simp
  · intro hb
    rw [(cleanByGFS_mem hb).1]
    simp
  · intro hb
    exact (cleanExceeded_deleted_props now lim _ _ le_rfl b hb).2
  · intro p hp hnf
    simp only [cleanByTimePeriod, hp]
    rw [if_neg hnf]
    simp [findBackupsBeforeDate, List.mem_filter, isRecentBackup, and_assoc]
    tauto

/-- C2 amended witness: in a sample catalog the COUNT policy deletes
nothing in progress, and the TIME_PERIOD characterization holds for
the old completed backup. -/
theorem inprogress_protection_amended_witness :
    bOld ∈ cleanByTimePeriod cfgTimePeriodDay tickNow [bNew, bOld, bInProg] :=
  ((inprogress_protection_amended cfgTimePeriodDay tickNow 0
      [bNew, bOld, bInProg] bOld).2.2.2 TimePeriod.day (by rfl)
    (by decide)).mpr (by decide)

/-- C10: a COUNT config whose retentionCount is not positive, and a GFS
config whose five counters are all not positive, make the respective
cleaning pass delete nothing: the degenerate GFS case returns before
the keep-set is built, so the empty keep-set never marks every
completed backup for deletion. -/
theorem degenerate_retention_guards (cfg : BackupConfig) (now : Int)
    (db : List Backup) :
    (cfg.retentionCount ≤ 0 → cleanByCount cfg now db = []) ∧
    (cfg.retentionGfsHours ≤ 0 ∧ cfg.retentionGfsDays ≤ 0 ∧
        cfg.retentionGfsWeeks ≤ 0 ∧ cfg.retentionGfsMonths ≤ 0 ∧
        cfg.retentionGfsYears ≤ 0 →
      cleanByGFS cfg now db = []) := by
  constructor
  · intro h
    unfold cleanByCount
    rw [if_pos h]
  · intro h
    unfold cleanByGFS
    rw [if_pos h]

/-- C10 witness: the all-zero sample config deletes nothing by COUNT
nor by GFS on a nonempty catalog. -/
theorem degenerate_retention_guards_witness :
    cleanByCount cfgZero tickNow [bNew, bOld] = [] ∧
      cleanByGFS cfgZero tickNow [bNew, bOld] = [] :=
  ⟨(degenerate_retention_guards cfgZero tickNow [bNew, bOld]).1 (by decide),
   (degenerate_retention_guards cfgZero tickNow [bNew, bOld]).2 (by decide)⟩

/-- A backup is the newest of its bucket for a key function: no other
backup in the list shares its key with a strictly later creation
instant. -/
abbrev NewestInBucket {K : Type} (key : Backup → K) (backups : List Backup)
    (b : Backup) : Prop :=
  ∀ b' ∈ backups, key b' = key b → b'.createdAt ≤ b.createdAt

/-- C3: the GFS keep-set builder respects its budgets: for nonnegative
budgets the keep-set holds at most H + D + W + M + Y ids (each class
keeps at most its budget); all-zero budgets and the empty input both
yield the empty keep-set. -/
theorem gfs_budget_respected (backups : List Backup) (H D W M Y : Int) :
    (0 ≤ H → 0 ≤ D → 0 ≤ W → 0 ≤ M → 0 ≤ Y →
      (buildGFSKeepSet backups H D W M Y).card ≤ (H + D + W + M + Y).toNat) ∧
    buildGFSKeepSet backups 0 0 0 0 0 = ∅ ∧
    buildGFSKeepSet [] H D W M Y = ∅ := by
  refine ⟨?_, ?_, rfl⟩
  · intro hH hD hW hM hY
    rw [buildGFSKeepSet_eq_union]
    have c1 : (idsOf (keptVia hourKey H backups)).card ≤ H.toNat :=
      le_trans (idsOf_card_le _) (keptVia_length _ _ _)
    have c2 : (idsOf (keptVia dayKey D backups)).card ≤ D.toNat :=
      le_trans (idsOf_card_le _) (keptVia_length _ _ _)
    have c3 : (idsOf (keptVia weekKey W backups)).card ≤ W.toNat :=
      le_trans (idsOf_card_le _) (keptVia_length _ _ _)
    have c4 : (idsOf (keptVia monthKey M backups)).card ≤ M.toNat :=
      le_trans (idsOf_card_le _) (keptVia_length _ _ _)
    have c5 : (idsOf (keptVia yearKey Y backups)).card ≤ Y.toNat :=
      le_trans (idsOf_card_le _) (keptVia_length _ _ _)
    have u1 := Finset.card_union_le
      (idsOf (keptVia hourKey H backups)) (idsOf (keptVia dayKey D backups))
    have u2 := Finset.card_union_le
      (idsOf (keptVia hourKey H backups) ∪ idsOf (keptVia dayKey D backups))
      (idsOf (keptVia weekKey W backups))
    have u3 := Finset.card_union_le
      (idsOf (keptVia hourKey H backups) ∪ idsOf (keptVia dayKey D backups)
        ∪ idsOf (keptVia weekKey W backups))
      (idsOf (keptVia monthKey M backups))
    have u4 := Finset.card_union_le
      (idsOf (keptVia hourKey H backups) ∪ idsOf (keptVia dayKey D backups)
        ∪ idsOf (keptVia weekKey W backups) ∪ idsOf (keptVia monthKey M backups))
      (idsOf (keptVia yearKey Y backups))
    omega
  · rw [buildGFSKeepSet_eq_union]
    simp [keptVia, keptViaFrom_nonpos _ (le_refl (0 : Int)), idsOf]

/-- C3 witness: with budgets (1,1,0,0,0) on the two sample backups the
keep-set has at most two elements. -/
theorem gfs_budget_respected_witness :
    (buildGFSKeepSet [bNew, bOld] 1 1 0 0 0).card ≤
      ((1 : Int) + 1 + 0 + 0 + 0).toNat :=
  (gfs_budget_respected [bNew, bOld] 1 1 0 0 0).1 (by decide) (by decide)
    (by decide) (by decide) (by decide)

/-- C4: on a newest-first input the GFS keep-set decomposes into the
five per-class slot runs; each class run holds at most one backup per
distinct bucket key and each of its backups is the newest of its
bucket; and every kept id belongs to a backup that is the newest of at
least one (class, key) bucket. -/
theorem gfs_dedup_and_newest (backups : List Backup) (H D W M Y : Int)
    (hs : backups.Pairwise (fun a b => b.createdAt ≤ a.createdAt)) :
    buildGFSKeepSet backups H D W M Y =
        idsOf (keptVia hourKey H backups) ∪ idsOf (keptVia dayKey D backups)
          ∪ idsOf (keptVia weekKey W backups)
          ∪ idsOf (keptVia monthKey M backups)
          ∪ idsOf (keptVia yearKey Y backups) ∧
    (keptVia hourKey H backups).Pairwise (fun a b => hourKey a ≠ hourKey b) ∧
    (keptVia dayKey D backups).Pairwise (fun a b => dayKey a ≠ dayKey b) ∧
    (keptVia weekKey W backups).Pairwise (fun a b => weekKey a ≠ weekKey b) ∧
    (keptVia monthKey M backups).Pairwise
      (fun a b => monthKey a ≠ monthKey b) ∧
    (keptVia yearKey Y backups).Pairwise (fun a b => yearKey a ≠ yearKey b) ∧
    (∀ b ∈ keptVia hourKey H backups, NewestInBucket hourKey backups b) ∧
    (∀ b ∈ keptVia dayKey D backups, NewestInBucket dayKey backups b) ∧
    (∀ b ∈ keptVia weekKey W backups, NewestInBucket weekKey backups b) ∧
    (∀ b ∈ keptVia monthKey M backups, NewestInBucket monthKey backups b) ∧
    (∀ b ∈ keptVia yearKey Y backups, NewestInBucket yearKey backups b) ∧
    (∀ x ∈ buildGFSKeepSet backups H D W M Y, ∃ b ∈ backups, b.id = x ∧
      (NewestInBucket hourKey backups b ∨ NewestInBucket dayKey backups b ∨
        NewestInBucket weekKey backups b ∨ NewestInBucket monthKey backups b ∨
        NewestInBucket yearKey backups b)) := by
  refine ⟨buildGFSKeepSet_eq_union backups H D W M Y,
    keptViaFrom_pairwise hourKey H backups ⟨∅, 0⟩,
    keptViaFrom_pairwise dayKey D backups ⟨∅, 0⟩,
    keptViaFrom_pairwise weekKey W backups ⟨∅, 0⟩,
    keptViaFrom_pairwise monthKey M backups ⟨∅, 0⟩,
    keptViaFrom_pairwise yearKey Y backups ⟨∅, 0⟩,
    fun b hb => keptViaFrom_newest hourKey H backups ⟨∅, 0⟩ hs b hb,
    fun b hb => keptViaFrom_newest dayKey D backups ⟨∅, 0⟩ hs b hb,
    fun b hb => keptViaFrom_newest weekKey W backups ⟨∅, 0⟩ hs b hb,
    fun b hb => keptViaFrom_newest monthKey M backups ⟨∅, 0⟩ hs b hb,
    fun b hb => keptViaFrom_newest yearKey Y backups ⟨∅, 0⟩ hs b hb,
    ?_⟩
  intro x hx
  rw [buildGFSKeepSet_eq_union] at hx
  simp only [Finset.mem_union, mem_idsOf] at hx
  rcases hx with ((((⟨b, hb, hid⟩ | ⟨b, hb, hid⟩) | ⟨b, hb, hid⟩) |
    ⟨b, hb, hid⟩) | ⟨b, hb, hid⟩)
  · exact ⟨b, keptViaFrom_sub hourKey H backups ⟨∅, 0⟩ b hb, hid,
      Or.inl (fun b' hb' hk =>
        keptViaFrom_newest hourKey H backups ⟨∅, 0⟩ hs b hb b' hb' hk)⟩
  · exact ⟨b, keptViaFrom_sub dayKey D backups ⟨∅, 0⟩ b hb, hid,
      Or.inr (Or.inl (fun b' hb' hk =>
        keptViaFrom_newest dayKey D backups ⟨∅, 0⟩ hs b hb b' hb' hk))⟩
  · exact ⟨b, keptViaFrom_sub weekKey W backups ⟨∅, 0⟩ b hb, hid,
      Or.inr (Or.inr (Or.inl (fun b' hb' hk =>
        keptViaFrom_newest weekKey W backups ⟨∅, 0⟩ hs b hb b' hb' hk)))⟩
  · exact ⟨b, keptViaFrom_sub monthKey M backups ⟨∅, 0⟩ b hb, hid,
      Or.inr (Or.inr (Or.inr (Or.inl (fun b' hb' hk =>
        keptViaFrom_newest monthKey M backups ⟨∅, 0⟩ hs b hb b' hb' hk))))⟩
  · exact ⟨b, keptViaFrom_sub yearKey Y backups ⟨∅, 0⟩ b hb, hid,
      Or.inr (Or.inr (Or.inr (Or.inr (fun b' hb' hk =>
        keptViaFrom_newest yearKey Y backups ⟨∅, 0⟩ hs b hb b' hb' hk))))⟩

/-- C4 witness: the two sample backups share a day; sorted
newest-first, the day-class run with budget one holds pairwise
distinct day keys. -/
theorem gfs_dedup_and_newest_witness :
    ([bNew, bOld].Pairwise (fun a b => b.createdAt ≤ a.createdAt)) ∧
      (keptVia dayKey 1 [bNew, bOld]).Pairwise
        (fun a b => dayKey a ≠ dayKey b) :=
  ⟨by decide, (gfs_dedup_and_newest [bNew, bOld] 1 1 0 0 0 (by decide)).2.2.1⟩

lemma runHooks_none_iff (l : List (Option String)) :
    (runHooks l).1 = none ↔ ∀ h ∈ l, h = none := by
  induction l with
  | nil => simp [runHooks]
  | cons h rest ih =>
    cases h with
    | some e => simp [runHooks]
    | none => simpa [runHooks] using ih

lemma runHooks_all_none (l : List (Option String))
    (h : ∀ x ∈ l, x = none) : runHooks l = (none, l.length) := by
  induction l with
  | nil => rfl
  | cons hd rest ih =>
    have hhd : hd = none := h hd (List.mem_cons_self _ _)
    subst hhd
    have hr := ih (fun x hx => h x (List.mem_cons_of_mem _ hx))
    simp [runHooks, hr]

lemma runHooks_first_err :
    ∀ (l : List (Option String)) (i : Nat) (e : String),
      l.get? i = some (some e) →
      (∀ j, j < i → l.get? j = some none) →
      runHooks l = (some e, i + 1) := by
  intro l
  induction l with
  | nil => intro i e h _; simp at h
  | cons hd rest ih =>
    intro i e h hj
    cases i with
    | zero =>
      simp only [List.get?_cons_zero, Option.some.injEq] at h
      subst h
      rfl
    | succ n =>
      have h0 : hd = none := by
        have := hj 0 (Nat.succ_pos n)
        simpa using this
      subst h0
      have hr := ih n e (by simpa using h) (fun j hjn => by
        have := hj (j + 1) (Nat.succ_lt_succ hjn)
        simpa using this)
      simp [runHooks, hr]

/-- C5: DeleteBackup errs exactly when a pre-removal hook errs, the
storage-handle lookup fails, or the catalog delete fails; when hooks
and lookup succeed, both blob deletions and the catalog delete are
attempted and the result equals the catalog result, whatever the blob
outcomes; a first hook error at position i stops the hook loop after
i + 1 invocations with no storage or catalog effect; and the blob
outcomes never influence the run at all. -/
theorem deleteBackup_error_contract (env : DeleteEnv) :
    ((DeleteBackup env).1 = none ↔
      (∀ h ∈ env.hookResults, h = none) ∧ env.storageLookup = none ∧
        env.repoDeleteResult = none) ∧
    ((∀ h ∈ env.hookResults, h = none) → env.storageLookup = none →
      (DeleteBackup env).1 = env.repoDeleteResult ∧
        (DeleteBackup env).2 =
          ⟨env.hookResults.length, true, true, true⟩) ∧
    (∀ i e, env.hookResults.get? i = some (some e) →
      (∀ j, j < i → env.hookResults.get? j = some none) →
      (DeleteBackup env).1 = some e ∧
        (DeleteBackup env).2 = ⟨i + 1, false, false, false⟩) ∧
    (∀ m1 m2, DeleteBackup
        { env with deleteMainResult := m1, deleteMetaResult := m2 } =
      DeleteBackup env) := by
  refine ⟨⟨?_, ?_⟩, ?_, ?_, fun m1 m2 => rfl⟩
  · intro hnone
    simp only [DeleteBackup] at hnone
    cases hr : (runHooks env.hookResults).1 with
    | some e => rw [hr] at hnone; simp at hnone
    | none =>
      rw [hr] at hnone
      cases hs : env.storageLookup with
      | some e => rw [hs] at hnone; simp at hnone
      | none =>
        rw [hs] at hnone
        simp only at hnone
        exact ⟨(runHooks_none_iff _).mp hr, rfl, hnone⟩
  · rintro ⟨h1, h2, h3⟩
    have hr := runHooks_all_none _ h1
    simp only [DeleteBackup]
    simp [hr, h2, h3]
  · intro h1 h2
    have hr := runHooks_all_none _ h1
    simp only [DeleteBackup]
    simp [hr, h2]
  · intro i e hi hj
    have hr := runHooks_first_err _ i e hi hj
    simp only [DeleteBackup]
    simp [hr]

/-- C5 witness: a hook error in second position aborts the pipeline
after two hook invocations with no storage or catalog effect. -/
theorem deleteBackup_error_contract_witness :
    (DeleteBackup
        ⟨[none, some "hook boom"], none, some "io", none, none⟩).1 =
        some "hook boom" ∧
      (DeleteBackup
          ⟨[none, some "hook boom"], none, some "io", none, none⟩).2 =
        ⟨2, false, false, false⟩ :=
  (deleteBackup_error_contract
      ⟨[none, some "hook boom"], none, some "io", none, none⟩).2.2.1 1
    "hook boom" (by decide)
    (fun j hj => by
      have hz : j = 0 := by omega
      subst hz
      rfl)

/-- C6: size enforcement deletes nothing when the completed total is at
or under the cap; when over the cap it stops deleting nothing further
as soon as no candidate exists or the oldest candidate is recent (it
does not skip past it); when over the cap with a non-recent oldest
candidate, that candidate is the first deletion; and the loop ends only
with the total under the cap, no candidate left, or a recent oldest
candidate. -/
theorem size_enforcement_contract (now lim : Int) (db : List Backup) :
    (getTotalSizeByDatabase db ≤ (lim : ℚ) →
      cleanExceededBackupsForDatabase now lim db = ([], db)) ∧
    (¬ getTotalSizeByDatabase db ≤ (lim : ℚ) →
      findOldestByDatabaseExcludingInProgress db = none →
      cleanExceededBackupsForDatabase now lim db = ([], db)) ∧
    (∀ b, ¬ getTotalSizeByDatabase db ≤ (lim : ℚ) →
      findOldestByDatabaseExcludingInProgress db = some b →
      isRecentBackup now b = true →
      cleanExceededBackupsForDatabase now lim db = ([], db)) ∧
    (∀ b, ¬ getTotalSizeByDatabase db ≤ (lim : ℚ) →
      findOldestByDatabaseExcludingInProgress db = some b →
      isRecentBackup now b = false →
      ∃ rest, (cleanExceededBackupsForDatabase now lim db).1 = b :: rest) ∧
    (getTotalSizeByDatabase
        (cleanExceededBackupsForDatabase now lim db).2 ≤ (lim : ℚ) ∨
      findOldestByDatabaseExcludingInProgress
          (cleanExceededBackupsForDatabase now lim db).2 = none ∨
      ∃ b, findOldestByDatabaseExcludingInProgress
            (cleanExceededBackupsForDatabase now lim db).2 = some b ∧
          isRecentBackup now b = true) := by
  refine ⟨?_, ?_, ?_, ?_, cleanExceeded_post now lim db.length db le_rfl⟩
  · intro h
    rw [cleanExceededBackupsForDatabase, if_pos h]
  · intro h hn
    rw [cleanExceededBackupsForDatabase, if_neg h]
    split
    · rfl
    · rename_i b' heq
      rw [hn] at heq
      cases heq
  · intro b h hf hrec
    rw [cleanExceededBackupsForDatabase, if_neg h]
    split
    · rename_i heq
      rw [hf] at heq
    · rename_i b' heq
      rw [hf] at heq
      injection heq with hbb
      subst hbb
      rw [if_pos hrec]
  · intro b h hf hrec
    rw [cleanExceededBackupsForDatabase, if_neg h]
    split
    · rename_i heq
      rw [hf] at heq
      cases heq
    · rename_i b' heq
      rw [hf] at heq
      injection heq with hbb
      subst hbb
      rw [if_neg (by simp [hrec])]
      exact ⟨_, rfl⟩

/-- C6 witness: two 10 MiB completed backups against a 10 MiB cap: one
byte over means the oldest non-recent backup heads the deletion list. -/
theorem size_enforcement_contract_witness :
    ∃ rest, (cleanExceededBackupsForDatabase tickNow 10 [bNew, bOld]).1 =
      bOld :: rest :=
  (size_enforcement_contract tickNow 10 [bNew, bOld]).2.2.2.1 bOld
    (by
      have h20 : getTotalSizeByDatabase [bNew, bOld] = 20 := by
        simp [getTotalSizeByDatabase, bNew, bOld]
        norm_num
      rw [h20]
      norm_num)
    (by decide) (by decide)

/-- Sample config violating the storage-period plan limit and, were the
gates reached, both plan size gates (both sizes left at 0 meaning
unlimited). -/
def cfgPlanViolations : BackupConfig :=
  ⟨true, false, .TIME_PERIOD, some .year, 0, 0, 0, 0, 0, 0, false, 0,
    .NONE, 0, 0⟩

/-- Sample plan capping both sizes at 500 MiB and the storage period at
one week. -/
def planWeek500 : DatabasePlan := ⟨500, 500, .week⟩

/-- Sample config passing every check before the plan size gates, with
both sizes left at 0 (unlimited). -/
def cfgGateFree : BackupConfig :=
  ⟨true, false, .COUNT, none, 5, 0, 0, 0, 0, 0, false, 0, .NONE, 0, 0⟩

/-- Sample plan capping both sizes at 500 MiB with unlimited storage
period. -/
def planCap500 : DatabasePlan := ⟨500, 500, .forever⟩

/-- C7: the validator checks run in a fixed order and the first failure
wins: a missing backup interval preempts everything, a retention-policy
error preempts every later check, and a config violating the
storage-period limit as well as both plan size limits yields exactly
the storage-period error. -/
theorem validate_first_error (isCloud : Bool) (b : BackupConfig)
    (plan : DatabasePlan) :
    (¬ b.hasBackupIntervalID = true → ¬ b.hasBackupInterval = true →
      Validate isCloud b plan = some "backup interval is required") ∧
    (∀ e, (b.hasBackupIntervalID = true ∨ b.hasBackupInterval = true) →
      validateRetentionPolicy b plan = some e →
      Validate isCloud b plan = some e) ∧
    Validate false cfgPlanViolations planWeek500 =
      some "storage period exceeds plan limit" := by
  refine ⟨?_, ?_, by rfl⟩
  · intro h1 h2
    unfold Validate
    rw [if_pos ⟨h1, h2⟩]
  · intro e hintv hrp
    simp only [Validate, hrp]
    rw [if_neg (by tauto)]

/-- C7 witness: a COUNT config with zero retention count fails with the
retention-count error even against a plan it also violates later. -/
theorem validate_first_error_witness :
    Validate false cfgZero planWeek500 =
      some "retention count must be greater than 0" :=
  (validate_first_error false cfgZero planWeek500).2.1
    "retention count must be greater than 0" (Or.inl rfl) (by rfl)

/-- C8: once the checks before the plan size gates pass, a positive
plan backup-size cap rejects a config whose own cap is 0 (unlimited) or
above the plan cap, with the exact gate error, and symmetrically for
the total-size cap; a zero (unlimited) plan cap can never produce the
corresponding gate error, and with both plan caps zero the config
passes. -/
theorem plan_size_gates (isCloud : Bool) (b : BackupConfig)
    (plan : DatabasePlan)
    (hintv : b.hasBackupIntervalID = true ∨ b.hasBackupInterval = true)
    (hrp : validateRetentionPolicy b plan = none)
    (hretry : ¬(b.isRetryIfFailed = true ∧ b.maxFailedTriesCount ≤ 0))
    (henc : b.encryption = BackupEncryption.empty ∨
      b.encryption = BackupEncryption.NONE ∨
      b.encryption = BackupEncryption.ENCRYPTED)
    (hcloud : isCloud = true → b.encryption = BackupEncryption.ENCRYPTED)
    (hsz : 0 ≤ b.maxBackupSizeMB) (htz : 0 ≤ b.maxBackupsTotalSizeMB) :
    (0 < plan.maxBackupSizeMB →
      (b.maxBackupSizeMB = 0 ∨ plan.maxBackupSizeMB < b.maxBackupSizeMB) →
      Validate isCloud b plan = some "max backup size exceeds plan limit") ∧
    (¬(0 < plan.maxBackupSizeMB ∧
        (b.maxBackupSizeMB = 0 ∨ plan.maxBackupSizeMB < b.maxBackupSizeMB)) →
      0 < plan.maxBackupsTotalSizeMB →
      (b.maxBackupsTotalSizeMB = 0 ∨
        plan.maxBackupsTotalSizeMB < b.maxBackupsTotalSizeMB) →
      Validate isCloud b plan =
        some "max total backups size exceeds plan limit") ∧
    (plan.maxBackupSizeMB = 0 →
      Validate isCloud b plan ≠ some "max backup size exceeds plan limit") ∧
    (plan.maxBackupsTotalSizeMB = 0 →
      Validate isCloud b plan ≠
        some "max total backups size exceeds plan limit") ∧
    (plan.maxBackupSizeMB = 0 → plan.maxBackupsTotalSizeMB = 0 →
      Validate isCloud b plan = none) := by
  have hV : Validate isCloud b plan =
      (if 0 < plan.maxBackupSizeMB ∧
          (b.maxBackupSizeMB = 0 ∨ plan.maxBackupSizeMB < b.maxBackupSizeMB)
        then some "max backup size exceeds plan limit"
        else if 0 < plan.maxBackupsTotalSizeMB ∧
            (b.maxBackupsTotalSizeMB = 0 ∨
              plan.maxBackupsTotalSizeMB < b.maxBackupsTotalSizeMB)
          then some "max total backups size exceeds plan limit"
          else none) := by
    simp only [Validate, hrp]
    rw [if_neg (by tauto), if_neg hretry, if_neg (by tauto),
      if_neg (by tauto), if_neg (by omega), if_neg (by omega)]
  refine ⟨?_, ?_, ?_, ?_, ?_⟩
  · intro hp hb
    rw [hV, if_pos ⟨hp, hb⟩]
  · intro hng hp hb
    rw [hV, if_neg hng, if_pos ⟨hp, hb⟩]
  · intro hz
    rw [hV, if_neg (by omega)]
    split
    · simp
    · simp
  · intro hz
    rw [hV]
    split
    · simp
    · rw [if_neg (by omega)]
      simp
  · intro h1 h2
    rw [hV, if_neg (by omega), if_neg (by omega)]

/-- C8 witness: a free-tier style plan capping backup size at 500 MiB
rejects a config that left its own cap at 0 (unlimited). -/
theorem plan_size_gates_witness :
    Validate false cfgGateFree planCap500 =
      some "max backup size exceeds plan limit" :=
  (plan_size_gates false cfgGateFree planCap500 (Or.inl rfl) (by rfl)
    (by decide) (Or.inr (Or.inl rfl)) (by decide) (by decide)
    (by decide)).1 (by decide) (Or.inl rfl)

/-- C9: period comparison is a total order on the eleven named periods:
zero exactly on equal periods, antisymmetric and transitive, FOREVER
strictly greatest, and the ten finite periods ordered by their
canonical durations. -/
theorem period_compare_total_order :
    ∀ a b c : TimePeriod,
      (a.CompareTo b = 0 ↔ a = b) ∧
      TimePeriod.CompareTo .forever .forever = 0 ∧
      (a ≠ .forever → a.CompareTo .forever = -1) ∧
      a.CompareTo b = -(b.CompareTo a) ∧
      (a.CompareTo b = -1 → b.CompareTo c = -1 → a.CompareTo c = -1) ∧
      TimePeriod.CompareTo .day .week = -1 ∧
      TimePeriod.CompareTo .week .month = -1 ∧
      TimePeriod.CompareTo .month .month3 = -1 ∧
      TimePeriod.CompareTo .month3 .month6 = -1 ∧
      TimePeriod.CompareTo .month6 .year = -1 ∧
      TimePeriod.CompareTo .year .years2 = -1 ∧
      TimePeriod.CompareTo .years2 .years3 = -1 ∧
      TimePeriod.CompareTo .years3 .years4 = -1 ∧
      TimePeriod.CompareTo .years4 .years5 = -1 ∧
      TimePeriod.CompareTo .years5 .forever = -1 := by decide

/-- C9 witness: MONTH compares strictly below FOREVER. -/
theorem period_compare_total_order_witness :
    TimePeriod.CompareTo .month .forever = -1 :=
  (period_compare_total_order .month .day .day).2.2.1 (by decide)
